import Mathlib

/-!
Verification of the Qualcomm SCM transport (`qcom_scm-32`-style driver) and
the mux/divider clock rate engine (`clk-regmap-mux-div.c`), shallowly embedded
in Lean 4. Machine integers are modelled as `Nat`/`Int` with explicit
truncation modulo `2^32` where the C code computes in `u32`/`size_t`
(32-bit platform); the little-endian wire encoding is modelled as byte lists.
-/

namespace Scm

/-- Truncation to an unsigned 32-bit value, as C arithmetic on `u32` does. -/
def u32 (n : Nat) : Nat := n % 2 ^ 32

/-- `cpu_to_le32`: little-endian byte encoding of the low 32 bits of `n`. -/
def cpu_to_le32 (n : Nat) : List Nat :=
  [n % 2 ^ 8, n / 2 ^ 8 % 2 ^ 8, n / 2 ^ 16 % 2 ^ 8, n / 2 ^ 24 % 2 ^ 8]

/-- `le32_to_cpu`: decode a 4-byte little-endian field. -/
def le32_to_cpu : List Nat → Nat
  | [b0, b1, b2, b3] => b0 + b1 * 2 ^ 8 + b2 * 2 ^ 16 + b3 * 2 ^ 24
  | _ => 0

theorem le32_roundtrip (n : Nat) : le32_to_cpu (cpu_to_le32 n) = u32 n := by
  simp only [le32_to_cpu, cpu_to_le32, u32]
  norm_num
  omega

/-- `sizeof(struct qcom_scm_command)`: four `__le32` fields, the flexible
array member `buf[0]` contributing nothing; also `offsetof(…, buf)`. -/
def CMD_HDR_SIZE : Nat := 16

/-- `sizeof(struct qcom_scm_response)`: three `__le32` fields. -/
def RSP_HDR_SIZE : Nat := 12

def PAGE_SIZE : Nat := 4096

/-- `PAGE_ALIGN(n)` on a 32-bit `size_t`: round up to the next multiple of
`PAGE_SIZE` (the C mask form `(n + 4095) & ~4095` on values `< 2^32` equals
dividing and re-multiplying by the page size). -/
def PAGE_ALIGN (n : Nat) : Nat := u32 (n + (PAGE_SIZE - 1)) / PAGE_SIZE * PAGE_SIZE

/-- The command header of `struct qcom_scm_command`; each field holds its
4 little-endian bytes as laid out in memory. -/
structure qcom_scm_command where
  len : List Nat
  buf_offset : List Nat
  resp_hdr_offset : List Nat
  id : List Nat
deriving DecidableEq

/-- The response header of `struct qcom_scm_response`. -/
structure qcom_scm_response where
  len : List Nat
  buf_offset : List Nat
  is_complete : List Nat
deriving DecidableEq

/-- `len` computed by `alloc_qcom_scm_command`:
`sizeof(*cmd) + sizeof(struct qcom_scm_response) + cmd_size + resp_size`. -/
def scm_total_len (cmd_size resp_size : Nat) : Nat :=
  CMD_HDR_SIZE + RSP_HDR_SIZE + cmd_size + resp_size

/-- The size of the block `alloc_qcom_scm_command` passes to `kzalloc`:
`PAGE_ALIGN(len)`. -/
def scm_alloc_size (cmd_size resp_size : Nat) : Nat :=
  PAGE_ALIGN (scm_total_len cmd_size resp_size)

/-- The command header as written by `alloc_qcom_scm_command`:
`len`, `buf_offset = offsetof(struct qcom_scm_command, buf)`,
`resp_hdr_offset = offset + cmd_size`; the `id` field is still the
`kzalloc` zero fill. -/
def alloc_qcom_scm_command (cmd_size resp_size : Nat) : qcom_scm_command :=
  { len := cpu_to_le32 (scm_total_len cmd_size resp_size)
    buf_offset := cpu_to_le32 CMD_HDR_SIZE
    resp_hdr_offset := cpu_to_le32 (CMD_HDR_SIZE + cmd_size)
    id := cpu_to_le32 0 }

/-- The value `(svc_id << 10) | cmd_id` computed in `u32` arithmetic by
`qcom_scm_call` before `cpu_to_le32` encodes it into the header. -/
def scm_command_id (svc_id cmd_id : Nat) : Nat :=
  u32 (svc_id <<< 10) ||| u32 cmd_id

/-- The command header after `qcom_scm_call` has stored
`cmd->id = cpu_to_le32((svc_id << 10) | cmd_id)`. -/
def qcom_scm_call_cmd (svc_id cmd_id cmd_size resp_size : Nat) : qcom_scm_command :=
  { alloc_qcom_scm_command cmd_size resp_size with
    id := cpu_to_le32 (scm_command_id svc_id cmd_id) }

/-- `qcom_scm_command_to_response`: byte offset of the response header from
the start of the command structure, `(void *)cmd + le32_to_cpu(cmd->resp_hdr_offset)`. -/
def qcom_scm_command_to_response (c : qcom_scm_command) : Nat :=
  le32_to_cpu c.resp_hdr_offset

/-- `qcom_scm_get_response_buffer`: address of the response payload,
`(void *)rsp + le32_to_cpu(rsp->buf_offset)`, with `rsp_addr` the address of
the response header. -/
def qcom_scm_get_response_buffer (rsp_addr : Nat) (rsp : qcom_scm_response) : Nat :=
  rsp_addr + le32_to_cpu rsp.buf_offset

theorem lor_mod_two_pow (a b k : Nat) :
    (a ||| b) % 2 ^ k = (a % 2 ^ k) ||| (b % 2 ^ k) := by
  apply Nat.eq_of_testBit_eq
  intro i
  simp [Nat.testBit_mod_two_pow, Nat.testBit_lor, Bool.and_or_distrib_left]

/-- C1: the buffered call path stores into the command header's `id` field the
32-bit value `(svc_id << 10) | cmd_id`, encoded little-endian. -/
theorem qcom_scm_call_id_field (svc_id cmd_id cmd_size resp_size : Nat)
    (hs : svc_id < 2 ^ 32) (hc : cmd_id < 2 ^ 32) :
    (qcom_scm_call_cmd svc_id cmd_id cmd_size resp_size).id =
      cpu_to_le32 (((svc_id <<< 10) ||| cmd_id) % 2 ^ 32) ∧
    le32_to_cpu (qcom_scm_call_cmd svc_id cmd_id cmd_size resp_size).id =
      ((svc_id <<< 10) ||| cmd_id) % 2 ^ 32 := by
  have hid : scm_command_id svc_id cmd_id = ((svc_id <<< 10) ||| cmd_id) % 2 ^ 32 := by
    rw [scm_command_id, u32, u32]
    exact (lor_mod_two_pow _ _ 32).symm
  have h1 : (qcom_scm_call_cmd svc_id cmd_id cmd_size resp_size).id =
      cpu_to_le32 (((svc_id <<< 10) ||| cmd_id) % 2 ^ 32) := by
    simp only [qcom_scm_call_cmd, hid]
  refine ⟨h1, ?_⟩
  rw [h1, le32_roundtrip, u32]
  exact Nat.mod_mod_of_dvd _ dvd_rfl

theorem qcom_scm_call_id_field_witness :
    (qcom_scm_call_cmd 2 3 4 4).id = cpu_to_le32 (((2 <<< 10) ||| 3) % 2 ^ 32) ∧
    le32_to_cpu (qcom_scm_call_cmd 2 3 4 4).id = ((2 <<< 10) ||| 3) % 2 ^ 32 :=
  qcom_scm_call_id_field 2 3 4 4 (by decide) (by decide)

/-- C2: the allocator's offsets satisfy `resp_hdr_offset = buf_offset + cmd_len`,
and the response header's `buf_offset` is exactly the offset of the response
buffer start relative to the start of the response header. -/
theorem alloc_command_offsets (cmd_size resp_size : Nat)
    (h : CMD_HDR_SIZE + cmd_size < 2 ^ 32) :
    le32_to_cpu (alloc_qcom_scm_command cmd_size resp_size).resp_hdr_offset =
      le32_to_cpu (alloc_qcom_scm_command cmd_size resp_size).buf_offset + cmd_size ∧
    ∀ (rsp_addr : Nat) (rsp : qcom_scm_response),
      qcom_scm_get_response_buffer rsp_addr rsp =
        rsp_addr + le32_to_cpu rsp.buf_offset ∧
      qcom_scm_get_response_buffer rsp_addr rsp - rsp_addr =
        le32_to_cpu rsp.buf_offset := by
  constructor
  · show le32_to_cpu (cpu_to_le32 (CMD_HDR_SIZE + cmd_size)) =
      le32_to_cpu (cpu_to_le32 CMD_HDR_SIZE) + cmd_size
    rw [le32_roundtrip, le32_roundtrip, u32, u32, Nat.mod_eq_of_lt h,
      Nat.mod_eq_of_lt (by simp [CMD_HDR_SIZE])]
  · intro rsp_addr rsp
    exact ⟨rfl, by simp [qcom_scm_get_response_buffer]⟩

theorem alloc_command_offsets_witness :
    le32_to_cpu (alloc_qcom_scm_command 8 4).resp_hdr_offset =
      le32_to_cpu (alloc_qcom_scm_command 8 4).buf_offset + 8 ∧
    qcom_scm_get_response_buffer 24 ⟨cpu_to_le32 12, cpu_to_le32 12, cpu_to_le32 0⟩ =
      24 + le32_to_cpu (cpu_to_le32 12) :=
  ⟨(alloc_command_offsets 8 4 (by decide)).1,
   ((alloc_command_offsets 8 4 (by decide)).2 24
      ⟨cpu_to_le32 12, cpu_to_le32 12, cpu_to_le32 0⟩).1⟩

/-- C3: the allocated length covers both headers plus both payloads and is
page-aligned. -/
theorem alloc_size_bound_aligned (cmd_size resp_size : Nat)
    (h : scm_total_len cmd_size resp_size + (PAGE_SIZE - 1) < 2 ^ 32) :
    CMD_HDR_SIZE + RSP_HDR_SIZE + cmd_size + resp_size ≤ scm_alloc_size cmd_size resp_size ∧
    scm_alloc_size cmd_size resp_size % PAGE_SIZE = 0 := by
  have htot : scm_total_len cmd_size resp_size = CMD_HDR_SIZE + RSP_HDR_SIZE + cmd_size + resp_size := rfl
  rw [scm_alloc_size, PAGE_ALIGN, u32, Nat.mod_eq_of_lt h, htot]
  set L := CMD_HDR_SIZE + RSP_HDR_SIZE + cmd_size + resp_size with hL
  constructor
  · have hdm := Nat.div_add_mod (L + (PAGE_SIZE - 1)) PAGE_SIZE
    have hlt : (L + (PAGE_SIZE - 1)) % PAGE_SIZE < PAGE_SIZE :=
      Nat.mod_lt _ (by simp [PAGE_SIZE])
    simp only [PAGE_SIZE] at hdm hlt ⊢
    omega
  · exact Nat.mul_mod_left _ _

theorem alloc_size_bound_aligned_witness :
    CMD_HDR_SIZE + RSP_HDR_SIZE + 8 + 4 ≤ scm_alloc_size 8 4 ∧
    scm_alloc_size 8 4 % PAGE_SIZE = 0 :=
  alloc_size_bound_aligned 8 4 (by decide)

/-! ### Secure-call trap and call orchestrator -/

def QCOM_SCM_ENOMEM : Int := -5

def QCOM_SCM_EOPNOTSUPP : Int := -4

def QCOM_SCM_EINVAL_ADDR : Int := -3

def QCOM_SCM_EINVAL_ARG : Int := -2

def QCOM_SCM_ERROR : Int := -1

def QCOM_SCM_INTERRUPTED : Int := 1

def ENOMEM : Int := 12

def EFAULT : Int := 14

def EINVAL : Int := 22

def EOPNOTSUPP : Int := 95

def EIO_code : Int := 5

/-- `smc`: issues the trap instruction, re-issuing it while the monitor's
return register equals `QCOM_SCM_INTERRUPTED`. The successive return codes of
the monitor (32-bit register values read back as signed) are given by the
list; the result is the first code that is not the interrupted sentinel,
`none` when every issuance in the list reported interruption (the C loop
would still be spinning). -/
def smc : List Int → Option Int
  | [] => none
  | r :: rest => if r = QCOM_SCM_INTERRUPTED then smc rest else some r

/-- Modelled from the spec: `qcom_scm_remap_error` lives in the header
`qcom_scm.h`, which is not part of the excerpt; per the spec it translates the
firmware's negative codes through a fixed table to the standard taxonomy
(no-memory, not-supported, invalid-address, invalid-argument, generic-error). -/
def qcom_scm_remap_error (err : Int) : Int :=
  if err = QCOM_SCM_ENOMEM then -ENOMEM
  else if err = QCOM_SCM_EOPNOTSUPP then -EOPNOTSUPP
  else if err = QCOM_SCM_EINVAL_ADDR then -EFAULT
  else if err = QCOM_SCM_EINVAL_ARG then -EINVAL
  else -EIO_code

/-- `__qcom_scm_call`: flushes the buffer (no observable effect in this
model), issues `smc`, and maps a negative return through
`qcom_scm_remap_error`; a non-negative return is passed through unchanged. -/
def __qcom_scm_call (fw : List Int) : Option Int :=
  (smc fw).map fun ret => if ret < 0 then qcom_scm_remap_error ret else ret

/-- C4: the buffered trap re-issues whenever the code equals the interrupted
sentinel (1), maps any other negative return through the translation table,
and passes a non-negative return through unchanged. -/
theorem smc_retry_and_remap (r : Int) (rest : List Int)
    (h : r ≠ QCOM_SCM_INTERRUPTED) :
    smc (QCOM_SCM_INTERRUPTED :: rest) = smc rest ∧
    (r < 0 → __qcom_scm_call (r :: rest) = some (qcom_scm_remap_error r)) ∧
    (0 ≤ r → __qcom_scm_call (r :: rest) = some r) := by
  refine ⟨by simp [smc], ?_, ?_⟩
  · intro hr
    simp [__qcom_scm_call, smc, h, hr]
  · intro hr
    simp [__qcom_scm_call, smc, h, if_neg (not_lt.mpr hr)]

theorem smc_retry_and_remap_witness :
    smc (QCOM_SCM_INTERRUPTED :: ([] : List Int)) = smc [] ∧
    __qcom_scm_call [(-3 : Int)] = some (qcom_scm_remap_error (-3)) :=
  ⟨(smc_retry_and_remap (-3) [] (by decide)).1,
   (smc_retry_and_remap (-3) [] (by decide)).2.1 (by decide)⟩

/-- The observable actions of `qcom_scm_call`, in program order. -/
inductive ScmEvent where
  | allocBuf
  | writeId
  | copyCmdIn
  | lock
  | trap
  | unlock
  | pollHeader
  | invFullRange
  | copyRespOut
  | freeBuf
deriving DecidableEq

/-- `qcom_scm_call` as the trace of its observable actions: allocate and
build the buffer, copy the request in, take the lock, trap, drop the lock; on
a nonzero trap result jump to `out:` (free the buffer and return the error);
otherwise invalidate and re-read the response header until `is_complete`
(`completeAfter + 1` polls, the do-while body runs at least once), invalidate
the full response range, copy the response payload out, free the buffer. -/
def qcom_scm_call (allocOk : Bool) (trapRet : Int) (completeAfter : Nat) :
    Int × List ScmEvent :=
  if !allocOk then (-ENOMEM, [ScmEvent.allocBuf])
  else
    let pre := [ScmEvent.allocBuf, ScmEvent.writeId, ScmEvent.copyCmdIn,
      ScmEvent.lock, ScmEvent.trap, ScmEvent.unlock]
    if trapRet ≠ 0 then (trapRet, pre ++ [ScmEvent.freeBuf])
    else (0, pre ++ List.replicate (completeAfter + 1) ScmEvent.pollHeader ++
      [ScmEvent.invFullRange, ScmEvent.copyRespOut, ScmEvent.freeBuf])

/-- C5: when the buffered trap returns a nonzero error, the orchestrator
frees the command buffer and returns that error, without polling the
completion flag and without copying any response bytes out. -/
theorem qcom_scm_call_trap_error (trapRet : Int) (completeAfter : Nat)
    (h : trapRet ≠ 0) :
    (qcom_scm_call true trapRet completeAfter).1 = trapRet ∧
    ScmEvent.freeBuf ∈ (qcom_scm_call true trapRet completeAfter).2 ∧
    ScmEvent.pollHeader ∉ (qcom_scm_call true trapRet completeAfter).2 ∧
    ScmEvent.copyRespOut ∉ (qcom_scm_call true trapRet completeAfter).2 := by
  have hres : qcom_scm_call true trapRet completeAfter =
      (trapRet, [ScmEvent.allocBuf, ScmEvent.writeId, ScmEvent.copyCmdIn,
        ScmEvent.lock, ScmEvent.trap, ScmEvent.unlock, ScmEvent.freeBuf]) := by
    simp [qcom_scm_call, h]
  rw [hres]
  refine ⟨rfl, ?_, ?_, ?_⟩ <;> simp

theorem qcom_scm_call_trap_error_witness :
    (qcom_scm_call true (-22) 0).1 = -22 ∧
    ScmEvent.freeBuf ∈ (qcom_scm_call true (-22) 0).2 ∧
    ScmEvent.pollHeader ∉ (qcom_scm_call true (-22) 0).2 ∧
    ScmEvent.copyRespOut ∉ (qcom_scm_call true (-22) 0).2 :=
  qcom_scm_call_trap_error (-22) 0 (by decide)

end Scm

namespace MuxDiv

def CMD_RCGR_UPDATE : Nat := 1

def CMD_RCGR_DIRTY_CFG : Nat := 2 ^ 4

def EBUSY : Int := 16

def EINVAL : Int := 22

/-- `mult_frac(x, n, d)` from `linux/kernel.h`:
`(x / d) * n + ((x % d) * n) / d`. -/
def mult_frac (x n d : Nat) : Nat := x / d * n + x % d * n / d

theorem mult_frac_eq (x n d : Nat) : mult_frac x n d = x * n / d := by
  rcases Nat.eq_zero_or_pos d with hd | hd
  · subst hd; simp [mult_frac]
  · have h1 : x * n = x % d * n + d * (x / d * n) := by
      conv_lhs => rw [← Nat.div_add_mod x d]
      ring
    rw [mult_frac, h1, Nat.add_mul_div_left _ _ hd]
    exact Nat.add_comm _ _

/-- `is_better_rate(req, best, new)`:
`(req <= new && new < best) || (best < req && best < new)`. -/
def is_better_rate (req best new : Nat) : Bool :=
  decide ((req ≤ new ∧ new < best) ∨ (best < req ∧ best < new))

/-- The fields of `struct clk_rate_request` that `mux_div_determine_rate`
writes: the chosen rate, the rate asked of (and rounded by) the winning
parent, and the winning parent (as its index, standing in for the
`clk_hw` pointer). -/
structure RateRequest where
  rate : Nat
  best_parent_rate : Nat
  best_parent_idx : Option Nat
deriving DecidableEq

/-- Loop state of `mux_div_determine_rate`: the local `best_rate` and the
output request. -/
structure DRState where
  best_rate : Nat
  req : RateRequest
deriving DecidableEq

/-- Inner divider loop of `mux_div_determine_rate` for parent `pidx` whose
`clk_hw_round_rate` callback is `round`: while `div < max_div`, compute
`parent_rate = round(mult_frac(req_rate, div, 2))` and
`actual_rate = mult_frac(parent_rate, 2, div)`, keep the candidate when
`is_better_rate`, and stop early when
`actual_rate < req_rate || best_rate <= req_rate`. Also returns the list of
divider values tried. `fuel` only bounds the recursion: the entry points
supply `fuel = max_div`, strictly more than the at most `max_div - 1`
iterations the C loop can make. -/
def drInner (round : Nat → Nat) (pidx req_rate max_div : Nat) :
    Nat → Nat → DRState → DRState × List Nat
  | 0, _, st => (st, [])
  | fuel + 1, div, st =>
    if div < max_div then
      let parent_rate := round (mult_frac req_rate div 2)
      let actual_rate := mult_frac parent_rate 2 div
      let st' :=
        if is_better_rate req_rate st.best_rate actual_rate then
          { best_rate := actual_rate,
            req := { rate := actual_rate, best_parent_rate := parent_rate,
                     best_parent_idx := some pidx } }
        else st
      if actual_rate < req_rate ∨ st'.best_rate ≤ req_rate then (st', [div])
      else
        let next := drInner round pidx req_rate max_div fuel (div + 1) st'
        (next.1, div :: next.2)
    else (st, [])

/-- Outer parent loop of `mux_div_determine_rate`: each parent is searched
with the divider loop starting at `div = 1`, carrying the best candidate
across parents. -/
def drOuter (max_div req_rate : Nat) :
    List (Nat → Nat) → Nat → DRState → DRState × List Nat
  | [], _, st => (st, [])
  | round :: rest, pidx, st =>
    let a := drInner round pidx req_rate max_div max_div 1 st
    let b := drOuter max_div req_rate rest (pidx + 1) a.1
    (b.1, a.2 ++ b.2)

/-- `mux_div_determine_rate`: `max_div = BIT(hid_width) - 1`; returns
`-EINVAL` when no candidate produced any rate (`best_rate == 0`), else `0`,
together with the (possibly updated) rate request. -/
def mux_div_determine_rate (hid_width : Nat) (parents : List (Nat → Nat))
    (rq : RateRequest) : Int × RateRequest :=
  let max_div := 2 ^ hid_width - 1
  let st := (drOuter max_div rq.rate parents 0 ⟨0, rq⟩).1
  if st.best_rate = 0 then (-EINVAL, st.req) else (0, st.req)

/-- The divider values tried by `mux_div_determine_rate`'s search. -/
def determine_rate_divs (hid_width : Nat) (parents : List (Nat → Nat))
    (rq : RateRequest) : List Nat :=
  (drOuter (2 ^ hid_width - 1) rq.rate parents 0 ⟨0, rq⟩).2

/-- Loop state of `__mux_div_set_rate_and_parent`: `best_rate`, the winning
parent's `parent_map[i].cfg`, and `best_div = div - 1` (the hardware
encoding of the winning divider). -/
structure SRState where
  best_rate : Nat
  best_src : Nat
  best_div : Nat
deriving DecidableEq

/-- Inner divider loop of `__mux_div_set_rate_and_parent`, identical in
shape to `drInner` but recording `best_src = parent_map[i].cfg` and
`best_div = div - 1`. -/
def srInner (round : Nat → Nat) (cfg rate max_div : Nat) :
    Nat → Nat → SRState → SRState × List Nat
  | 0, _, st => (st, [])
  | fuel + 1, div, st =>
    if div < max_div then
      let parent_rate := round (mult_frac rate div 2)
      let actual_rate := mult_frac parent_rate 2 div
      let st' :=
        if is_better_rate rate st.best_rate actual_rate then
          { best_rate := actual_rate, best_src := cfg, best_div := div - 1 }
        else st
      if actual_rate < rate ∨ st'.best_rate ≤ rate then (st', [div])
      else
        let next := srInner round cfg rate max_div fuel (div + 1) st'
        (next.1, div :: next.2)
    else (st, [])

/-- Outer parent loop of `__mux_div_set_rate_and_parent`; each parent is a
pair `(parent_map[i].cfg, round-rate callback)`. -/
def srOuter (max_div rate : Nat) :
    List (Nat × (Nat → Nat)) → SRState → SRState × List Nat
  | [], st => (st, [])
  | p :: rest, st =>
    let a := srInner p.2 p.1 rate max_div max_div 1 st
    let b := srOuter max_div rate rest a.1
    (b.1, a.2 ++ b.2)

/-- The search phase of `__mux_div_set_rate_and_parent` (the subsequent
register programming is modelled by `__mux_div_update_config`). -/
def __mux_div_set_rate_and_parent (hid_width : Nat)
    (parents : List (Nat × (Nat → Nat))) (rate : Nat) : SRState :=
  (srOuter (2 ^ hid_width - 1) rate parents ⟨0, 0, 0⟩).1

/-- The divider values tried by `__mux_div_set_rate_and_parent`'s search. -/
def set_rate_divs (hid_width : Nat) (parents : List (Nat × (Nat → Nat)))
    (rate : Nat) : List Nat :=
  (srOuter (2 ^ hid_width - 1) rate parents ⟨0, 0, 0⟩).2

/-- The `for (count = 500; count > 0; count--)` poll of
`__mux_div_update_config`: `reads k` is the CMD register value returned by
the `k`-th `regmap_read`; each check that still sees the update bit is
followed by `udelay(1)`; when the loop exhausts its budget the function
returns `-EBUSY`. Returns `(ret, polls, delays)`. -/
def regmapUpdatePoll (reads : Nat → Nat) : Nat → Nat → Nat → Int × Nat × Nat
  | 0, polls, delays => (-EBUSY, polls, delays)
  | count + 1, polls, delays =>
    if reads polls &&& CMD_RCGR_UPDATE = 0 then (0, polls + 1, delays)
    else regmapUpdatePoll reads count (polls + 1) (delays + 1)

/-- Result of `__mux_div_update_config`: return value, number of register
polls, number of `udelay(1)` calls, and the register writes
(`(mask, value)` pairs applied to the CMD register) it issued. -/
structure UpdateConfigResult where
  ret : Int
  polls : Nat
  delays : Nat
  writes : List (Nat × Nat)
deriving DecidableEq

/-- `__mux_div_update_config`: one `regmap_update_bits` setting
`CMD_RCGR_UPDATE`, then the 500-iteration poll. -/
def __mux_div_update_config (reads : Nat → Nat) : UpdateConfigResult :=
  let r := regmapUpdatePoll reads 500 0 0
  { ret := r.1, polls := r.2.1, delays := r.2.2,
    writes := [(CMD_RCGR_UPDATE, CMD_RCGR_UPDATE)] }

/-- Per-instance bit-field layout of the configuration register. -/
structure MdConfig where
  src_shift : Nat
  src_width : Nat
  hid_shift : Nat
  hid_width : Nat

/-- `__mux_div_get_src_div`: reads the CMD register (`cmdVal`); when
`CMD_RCGR_DIRTY_CFG` is set it logs and returns early, leaving the output
variables at the caller's (uninitialized) values `src0`, `div0`; otherwise it
extracts the source and divider fields from the CFG register (`cfgVal`). -/
def __mux_div_get_src_div (md : MdConfig) (cmdVal cfgVal src0 div0 : Nat) :
    Nat × Nat :=
  if cmdVal &&& CMD_RCGR_DIRTY_CFG ≠ 0 then (src0, div0)
  else (cfgVal >>> md.src_shift &&& (2 ^ md.src_width - 1),
        cfgVal >>> md.hid_shift &&& (2 ^ md.hid_width - 1))

/-- `mux_div_recalc_rate`: reads back source and divider, scans
`parent_map` (the list of `parent_map[i].cfg` values) for the source, and
returns `mult_frac(parent_rate, 2, div + 1)` for the first match, `0` when
no parent matches. `src0`/`div0` are the values the uninitialized locals
`src`/`div` of the C function happen to hold on entry. -/
def recalcScan (src div : Nat) : List (Nat × Nat) → Nat
  | [] => 0
  | p :: rest => if p.1 = src then mult_frac p.2 2 (div + 1) else recalcScan src div rest

/-- `mux_div_recalc_rate`, with the parents given as pairs
`(parent_map[i].cfg, clk_hw_get_rate(parent i))`. -/
def mux_div_recalc_rate (md : MdConfig) (cmdVal cfgVal : Nat)
    (parents : List (Nat × Nat)) (src0 div0 : Nat) : Nat :=
  let sd := __mux_div_get_src_div md cmdVal cfgVal src0 div0
  recalcScan sd.1 sd.2 parents

end MuxDiv

namespace MuxDiv

theorem regmapUpdatePoll_counts (reads : Nat → Nat) :
    ∀ count polls delays,
      (regmapUpdatePoll reads count polls delays).2.1 ≤ polls + count ∧
      (regmapUpdatePoll reads count polls delays).2.2 ≤ delays + count := by
  intro count
  induction count with
  | zero =>
    intro polls delays
    simp [regmapUpdatePoll]
  | succ n ih =>
    intro polls delays
    simp only [regmapUpdatePoll]
    by_cases h : reads polls &&& CMD_RCGR_UPDATE = 0
    · rw [if_pos h]
      refine ⟨?_, ?_⟩ <;> simp
    · rw [if_neg h]
      have h2 := ih (polls + 1) (delays + 1)
      exact ⟨by omega, by omega⟩

theorem regmapUpdatePoll_busy (reads : Nat → Nat) :
    ∀ count polls delays,
      (∀ k, polls ≤ k → k < polls + count → reads k &&& CMD_RCGR_UPDATE ≠ 0) →
      regmapUpdatePoll reads count polls delays =
        (-EBUSY, polls + count, delays + count) := by
  intro count
  induction count with
  | zero =>
    intro polls delays _
    simp [regmapUpdatePoll]
  | succ n ih =>
    intro polls delays hb
    simp only [regmapUpdatePoll]
    rw [if_neg (hb polls le_rfl (by omega))]
    rw [ih (polls + 1) (delays + 1) (fun k hk1 hk2 => hb k (by omega) (by omega)),
      show polls + 1 + n = polls + (n + 1) by omega,
      show delays + 1 + n = delays + (n + 1) by omega]

/-- C8: after triggering the update bit, the poll checks the pending bit at
most 500 times with a 1 µs delay after each still-pending check; if the bit
never clears within the bound the function returns `-EBUSY`, and its only
register write is the one that set `CMD_RCGR_UPDATE` (it never clears the
bit itself). -/
theorem update_config_poll_spec (reads : Nat → Nat) :
    (__mux_div_update_config reads).polls ≤ 500 ∧
    (__mux_div_update_config reads).delays ≤ 500 ∧
    ((∀ k, k < 500 → reads k &&& CMD_RCGR_UPDATE ≠ 0) →
      (__mux_div_update_config reads).ret = -EBUSY ∧
      (__mux_div_update_config reads).polls = 500 ∧
      (__mux_div_update_config reads).delays = 500) ∧
    (__mux_div_update_config reads).writes = [(CMD_RCGR_UPDATE, CMD_RCGR_UPDATE)] := by
  refine ⟨?_, ?_, ?_, rfl⟩
  · have h := (regmapUpdatePoll_counts reads 500 0 0).1
    simpa [__mux_div_update_config] using h
  · have h := (regmapUpdatePoll_counts reads 500 0 0).2
    simpa [__mux_div_update_config] using h
  · intro hb
    have h := regmapUpdatePoll_busy reads 500 0 0 (fun k h1 h2 => hb k (by omega))
    simp [__mux_div_update_config, h]

theorem update_config_poll_spec_witness :
    (__mux_div_update_config fun _ => 1).polls ≤ 500 ∧
    ((__mux_div_update_config fun _ => 1).ret = -EBUSY ∧
      (__mux_div_update_config fun _ => 1).polls = 500 ∧
      (__mux_div_update_config fun _ => 1).delays = 500) ∧
    (__mux_div_update_config fun _ => 1).writes = [(CMD_RCGR_UPDATE, CMD_RCGR_UPDATE)] :=
  ⟨(update_config_poll_spec fun _ => 1).1,
   (update_config_poll_spec fun _ => 1).2.2.1 (fun k _ => by decide),
   (update_config_poll_spec fun _ => 1).2.2.2⟩

/-- C9 evidence: with the configuration-dirty bit set in the CMD register,
`__mux_div_get_src_div` returns early and `mux_div_recalc_rate`'s locals
`src`/`div` keep whatever stale values they held (here `src0 = 5`,
`div0 = 0`); if that stale source happens to match `parent_map[0].cfg = 5`,
the function returns `mult_frac(19200, 2, 1) = 38400`, not the 0 the
specification promises. -/
theorem recalc_rate_dirty_stale_bug :
    mux_div_recalc_rate ⟨0, 3, 8, 4⟩ CMD_RCGR_DIRTY_CFG 0 [(5, 19200), (7, 38400)] 5 0 = 38400 ∧
    (38400 : Nat) ≠ 0 := by
  exact ⟨by decide, by decide⟩

end MuxDiv

namespace MuxDiv

theorem is_better_rate_iff (req best new : Nat) :
    is_better_rate req best new = true ↔
      ((req ≤ new ∧ new < best) ∨ (best < req ∧ best < new)) := by
  simp [is_better_rate]

theorem drInner_even_exact (R f : Nat) (hR : 0 < R) (he : R % 2 = 0) (hf : 0 < f)
    (rq : RateRequest) :
    drInner (fun r => r) 0 R (f + 1) (f + 1) 1 ⟨0, rq⟩ =
      (⟨R, ⟨R, R / 2, some 0⟩⟩, [1]) := by
  have hlt : (1 : Nat) < f + 1 := by omega
  have hp : mult_frac R 1 2 = R / 2 := by unfold mult_frac; omega
  have ha : mult_frac (R / 2) 2 1 = R := by unfold mult_frac; omega
  have hb : is_better_rate R 0 R = true := by
    rw [is_better_rate_iff]
    omega
  simp only [drInner, hlt, if_true, hp, ha, hb]
  simp

/-- The output rates reachable through the loop's rate formula: some divider
value the search ranges over and some parent target `p`, giving
`actual_rate = mult_frac(round(p), 2, div)`. -/
def achievable_rate (round : Nat → Nat) (max_div r : Nat) : Prop :=
  ∃ p div, 1 ≤ div ∧ div < max_div ∧ mult_frac (round p) 2 div = r

/-- C6 counterexample: requested rate 3 with a single exact-rounding parent
(`hid_width = 4`): the achievable rate 3 ≥ 3 exists (divider 2, parent
target 3), yet `mux_div_determine_rate` settles on divider 1, whose rate is
`2*(3/2) = 2 < 3`, and breaks out immediately. -/
theorem determine_rate_ge_counterexample :
    mux_div_determine_rate 4 [fun r => r] ⟨3, 0, none⟩ = (0, ⟨2, 1, some 0⟩) ∧
    achievable_rate (fun r => r) (2 ^ 4 - 1) 3 ∧
    ¬(2 : Nat) ≥ 3 :=
  ⟨by decide, ⟨3, 2, by decide, by decide, by decide⟩, by decide⟩

/-- C6 (amended): a candidate replaces the current best exactly when
`(requested ≤ new < best) ∨ (best < requested ∧ best < new)`; consequently,
with a single exact-rounding parent, `determine_rate` returns exactly the
requested rate R (hence a rate ≥ R) whenever R is even and positive. For odd
R the divider-1 candidate `2*(R/2) = R - 1` is below R and the loop breaks at
once, so a rate below R can be returned even though a rate ≥ R is
achievable. -/
theorem determine_rate_better_and_even :
    (∀ req best new : Nat, is_better_rate req best new = true ↔
      ((req ≤ new ∧ new < best) ∨ (best < req ∧ best < new))) ∧
    (∀ hid_width R : Nat, 2 ≤ hid_width → 0 < R → R % 2 = 0 →
      mux_div_determine_rate hid_width [fun r => r] ⟨R, 0, none⟩ =
        (0, ⟨R, R / 2, some 0⟩)) := by
  refine ⟨is_better_rate_iff, ?_⟩
  intro w R hw hR he
  have h4 : 4 ≤ 2 ^ w := by
    calc (4 : Nat) = 2 ^ 2 := rfl
    _ ≤ 2 ^ w := Nat.pow_le_pow_right (by omega) hw
  obtain ⟨f, hf⟩ : ∃ f, 2 ^ w - 1 = f + 1 := ⟨2 ^ w - 2, by omega⟩
  have hinner := drInner_even_exact R f hR he (by omega) ⟨R, 0, none⟩
  simp only [mux_div_determine_rate, drOuter, hf, hinner]
  rw [if_neg (by omega : ¬R = 0)]

theorem determine_rate_better_and_even_witness :
    is_better_rate 5 0 6 = true ∧
    mux_div_determine_rate 4 [fun r => r] ⟨6, 0, none⟩ = (0, ⟨6, 3, some 0⟩) :=
  ⟨(determine_rate_better_and_even.1 5 0 6).mpr (by omega),
   determine_rate_better_and_even.2 4 6 (by omega) (by omega) (by omega)⟩

/-- C7 counterexample: at requested rate 19_200_000 with one exact-rounding
parent, the winning divider is 1, but the rate asked of the parent — the
argument passed to `clk_hw_round_rate` and recorded in
`req->best_parent_rate` — is `mult_frac(19200000, 1, 2) = 9_600_000`, not
19_200_000. -/
theorem determine_rate_19200000_parent_ask :
    (mux_div_determine_rate 5 [fun r => r] ⟨19200000, 0, none⟩).2.best_parent_rate =
      9600000 ∧
    (9600000 : Nat) ≠ 19200000 :=
  ⟨by decide, by decide⟩

/-- C7 (amended): requested rate 19_200_000, single exact-rounding parent:
`determine_rate` yields the exact rate with the parent asked for 9_600_000,
and the `set_rate_and_parent` search picks divider 1, programming hardware
encoding `best_div = div - 1 = 0`. -/
theorem determine_rate_19200000_exact :
    mux_div_determine_rate 5 [fun r => r] ⟨19200000, 0, none⟩ =
      (0, ⟨19200000, 9600000, some 0⟩) ∧
    __mux_div_set_rate_and_parent 5 [(1, fun r => r)] 19200000 = ⟨19200000, 1, 0⟩ :=
  ⟨by decide, by decide⟩

theorem drInner_divs_range (round : Nat → Nat) (pidx req_rate max_div : Nat) :
    ∀ fuel div st d, d ∈ (drInner round pidx req_rate max_div fuel div st).2 →
      div ≤ d ∧ d < max_div := by
  intro fuel
  induction fuel with
  | zero =>
    intro div st d hd
    simp [drInner] at hd
  | succ n ih =>
    intro div st d hd
    by_cases hlt : div < max_div
    · simp only [drInner, hlt, if_true] at hd
      set pr := round (mult_frac req_rate div 2) with hpr
      set ar := mult_frac pr 2 div with har
      set st' := if is_better_rate req_rate st.best_rate ar then
          ({ best_rate := ar,
             req := { rate := ar, best_parent_rate := pr,
                      best_parent_idx := some pidx } } : DRState)
        else st with hst'
      by_cases hbrk : ar < req_rate ∨ st'.best_rate ≤ req_rate
      · rw [if_pos hbrk] at hd
        simp at hd
        omega
      · rw [if_neg hbrk] at hd
        simp at hd
        rcases hd with hd | hd
        · omega
        · have h3 := ih (div + 1) st' d hd
          omega
    · simp only [drInner, hlt, if_false] at hd
      simp at hd

theorem drOuter_divs_range (max_div req_rate : Nat) :
    ∀ parents pidx st d, d ∈ (drOuter max_div req_rate parents pidx st).2 →
      1 ≤ d ∧ d < max_div := by
  intro parents
  induction parents with
  | nil =>
    intro pidx st d hd
    simp [drOuter] at hd
  | cons round rest ih =>
    intro pidx st d hd
    simp only [drOuter] at hd
    rw [List.mem_append] at hd
    rcases hd with hd | hd
    · exact drInner_divs_range round pidx req_rate max_div max_div 1 st d hd
    · exact ih (pidx + 1) _ d hd

theorem srInner_divs_range (round : Nat → Nat) (cfg rate max_div : Nat) :
    ∀ fuel div st d, d ∈ (srInner round cfg rate max_div fuel div st).2 →
      div ≤ d ∧ d < max_div := by
  intro fuel
  induction fuel with
  | zero =>
    intro div st d hd
    simp [srInner] at hd
  | succ n ih =>
    intro div st d hd
    by_cases hlt : div < max_div
    · simp only [srInner, hlt, if_true] at hd
      set pr := round (mult_frac rate div 2) with hpr
      set ar := mult_frac pr 2 div with har
      set st' := if is_better_rate rate st.best_rate ar then
          ({ best_rate := ar, best_src := cfg, best_div := div - 1 } : SRState)
        else st with hst'
      by_cases hbrk : ar < rate ∨ st'.best_rate ≤ rate
      · rw [if_pos hbrk] at hd
        simp at hd
        omega
      · rw [if_neg hbrk] at hd
        simp at hd
        rcases hd with hd | hd
        · omega
        · have h3 := ih (div + 1) st' d hd
          omega
    · simp only [srInner, hlt, if_false] at hd
      simp at hd

theorem srOuter_divs_range (max_div rate : Nat) :
    ∀ parents st d, d ∈ (srOuter max_div rate parents st).2 →
      1 ≤ d ∧ d < max_div := by
  intro parents
  induction parents with
  | nil =>
    intro st d hd
    simp [srOuter] at hd
  | cons p rest ih =>
    intro st d hd
    simp only [srOuter] at hd
    rw [List.mem_append] at hd
    rcases hd with hd | hd
    · exact srInner_divs_range p.2 p.1 rate max_div max_div 1 st d hd
    · exact ih _ d hd

/-- C10: both divider searches only ever try divider values between 1 and
`2^hid_width - 2`; the maximum encodable value `2^hid_width - 1` is never
tried. -/
theorem divider_search_never_max (hid_width : Nat) (parents : List (Nat → Nat))
    (ps : List (Nat × (Nat → Nat))) (rq : RateRequest) (rate d : Nat) :
    (d ∈ determine_rate_divs hid_width parents rq →
      1 ≤ d ∧ d ≤ 2 ^ hid_width - 2 ∧ d ≠ 2 ^ hid_width - 1) ∧
    (d ∈ set_rate_divs hid_width ps rate →
      1 ≤ d ∧ d ≤ 2 ^ hid_width - 2 ∧ d ≠ 2 ^ hid_width - 1) := by
  constructor
  · intro hd
    have hd' : d ∈ (drOuter (2 ^ hid_width - 1) rq.rate parents 0 ⟨0, rq⟩).2 := hd
    have h := drOuter_divs_range (2 ^ hid_width - 1) rq.rate parents 0 ⟨0, rq⟩ d hd'
    generalize hpw : (2 : Nat) ^ hid_width = t at h ⊢
    omega
  · intro hd
    have hd' : d ∈ (srOuter (2 ^ hid_width - 1) rate ps ⟨0, 0, 0⟩).2 := hd
    have h := srOuter_divs_range (2 ^ hid_width - 1) rate ps ⟨0, 0, 0⟩ d hd'
    generalize hpw : (2 : Nat) ^ hid_width = t at h ⊢
    omega

theorem divider_search_never_max_witness :
    (1 ∈ determine_rate_divs 4 [fun r => r] ⟨6, 0, none⟩) ∧
    (1 ≤ 1 ∧ 1 ≤ 2 ^ 4 - 2 ∧ 1 ≠ 2 ^ 4 - 1) ∧
    (1 ∈ set_rate_divs 4 [(1, fun r => r)] 6) ∧
    (1 ≤ 1 ∧ 1 ≤ 2 ^ 4 - 2 ∧ 1 ≠ 2 ^ 4 - 1) :=
  ⟨by decide,
   (divider_search_never_max 4 [fun r => r] [(1, fun r => r)] ⟨6, 0, none⟩ 6 1).1
     (by decide),
   by decide,
   (divider_search_never_max 4 [fun r => r] [(1, fun r => r)] ⟨6, 0, none⟩ 6 1).2
     (by decide)⟩

end MuxDiv
